import Mathlib

/-!
Shallow embedding of the parallel Oracle query partitioning engine:
a range-partitioned variant (`OracleThreadedQuery`) and a year-partitioned
variant (`OracleYearPartitionedQuery`).  The database is modelled as the
ordered list of rows the base query would return (range variant), or as a
map from year to that year's rows (year variant); a row is an abstract
token.  Fallible Python operations (integer division by zero) are modelled
with `Except`.  Worker completion order is modelled by quantifying over
permutations of the deposited result queue.
-/

abbrev Row := Nat

namespace OracleThreadedQuery

/-- Python integer floor division, raising `ZeroDivisionError` on a zero
divisor (models `total_rows // self.num_threads`). -/
def pydiv (a b : Int) : Except String Int :=
  if b = 0 then Except.error "ZeroDivisionError" else Except.ok (Int.fdiv a b)

/-- Embeds `get_partition_ranges`: `chunk_size = total_rows // num_threads`;
range `i` is `(i*chunk_size + 1, (i+1)*chunk_size)` except the last, which
ends at `total_rows`. -/
def get_partition_ranges (num_threads : Nat) (total_rows : Int) :
    Except String (List (Int × Int)) := do
  let chunk_size ← pydiv total_rows (num_threads : Int)
  Except.ok ((List.range num_threads).map (fun i : Nat =>
    ((i : Int) * chunk_size + 1,
     if (i : Int) < (num_threads : Int) - 1 then ((i : Int) + 1) * chunk_size
     else total_rows)))

/-- Embeds `process_chunk`: the wrapped query keeps the base query's rows
with `ROWNUM ≤ end` (a prefix) and then `rnum ≥ start`. -/
def process_chunk (db : List Row) (row_range : Int × Int) : List Row :=
  (db.take row_range.2.toNat).drop (row_range.1 - 1).toNat

/-- Embeds the merge loop of `execute_parallel`: the result queue is drained
in arrival order and the chunk lists are concatenated as they come. -/
def merge_range (queue : List (List Row)) : List Row := queue.flatten

/-- Embeds `execute_parallel` of the range variant along the canonical
completion order (workers finish in submission order): count query, range
planning, one chunk per range, queue drain. -/
def execute_parallel (db : List Row) (num_threads : Nat) :
    Except String (List Row) := do
  let ranges ← get_partition_ranges num_threads (db.length : Int)
  Except.ok (merge_range (ranges.map (process_chunk db)))

end OracleThreadedQuery

namespace OracleYearPartitionedQuery

/-- Embeds `list(range(self.start_year, self.end_year + 1))`. -/
def plan_years (start_year end_year : Int) : List Int :=
  (List.range (end_year + 1 - start_year).toNat).map
    (fun i : Nat => start_year + (i : Int))

/-- Embeds `process_year`: a worker either raises (its year never reaches
the result queue) or deposits `(year, rows of that year)`. -/
def process_year (db : Int → List Row) (fails : Int → Bool) (year : Int) :
    Option (Int × List Row) :=
  if fails year then none else some (year, db year)

/-- Comparison used by `temp_results.sort(key=lambda x: x[0])`. -/
def yearLe (a b : Int × List Row) : Prop := a.1 ≤ b.1

instance : DecidableRel yearLe := fun a b => inferInstanceAs (Decidable (a.1 ≤ b.1))

instance : IsTotal (Int × List Row) yearLe := ⟨fun a b => Int.le_total a.1 b.1⟩

instance : IsTrans (Int × List Row) yearLe := ⟨fun _ _ _ hab hbc => le_trans hab hbc⟩

/-- Strict version of `yearLe`, used to state uniqueness of the sorted queue. -/
def yearLt (a b : Int × List Row) : Prop := a.1 < b.1

instance : IsAntisymm (Int × List Row) yearLt := ⟨fun _ _ h h' => (lt_asymm h h').elim⟩

/-- Embeds `temp_results.sort(key=lambda x: x[0])` with a stable sort. -/
def sort_by_year (l : List (Int × List Row)) : List (Int × List Row) :=
  l.insertionSort yearLe

/-- Embeds the merge loop of the year variant: sort the drained queue by
year, then concatenate each year's rows in order. -/
def merge_year (queue : List (Int × List Row)) : List Row :=
  ((sort_by_year queue).map Prod.snd).flatten

/-- Embeds `execute_parallel` of the year variant along the canonical
completion order.  The final metrics line divides by `total_years`, so an
empty year list raises `ZeroDivisionError` after all work is done. -/
def execute_parallel (db : Int → List Row) (fails : Int → Bool)
    (start_year end_year : Int) : Except String (List Row) :=
  let years := plan_years start_year end_year
  let merged := merge_year (years.filterMap (process_year db fails))
  if years.length = 0 then Except.error "ZeroDivisionError" else Except.ok merged

end OracleYearPartitionedQuery

/-- `covers lo hi l`: the ranges in `l` tile the integer interval
`[lo, hi]` exactly: each range starts where the previous one ended plus
one, is nonempty, and the last one ends at `hi`. -/
def covers : Int → Int → List (Int × Int) → Prop
  | lo, hi, [] => lo = hi + 1
  | lo, hi, r :: rs => r.1 = lo ∧ r.1 ≤ r.2 ∧ covers (r.2 + 1) hi rs

/-- Example database for the year variant: one row per year 2020-2022. -/
def exdb : Int → List Row := fun y =>
  if y = 2020 then [1] else if y = 2021 then [2] else if y = 2022 then [3] else []

/-- Example failure pattern: the worker for year 2021 raises. -/
def exfails : Int → Bool := fun y => y == 2021

namespace OracleThreadedQuery

/-- For a positive thread count the division succeeds and
`get_partition_ranges` returns the mapped range list. -/
lemma get_partition_ranges_eq (num_threads : Nat) (total_rows : Int)
    (h : 1 ≤ num_threads) :
    get_partition_ranges num_threads total_rows =
      Except.ok ((List.range num_threads).map (fun i : Nat =>
        ((i : Int) * Int.fdiv total_rows (num_threads : Int) + 1,
         if (i : Int) < (num_threads : Int) - 1 then
           ((i : Int) + 1) * Int.fdiv total_rows (num_threads : Int)
         else total_rows))) := by
  have hn : (num_threads : Int) ≠ 0 :=
    Int.natCast_ne_zero.mpr (Nat.one_le_iff_ne_zero.mp h)
  simp only [get_partition_ranges, pydiv, if_neg hn]
  rfl

end OracleThreadedQuery

namespace covers

/-- Under `covers lo hi l` the interval is not inverted past adjacency. -/
lemma lo_le {lo hi : Int} {l : List (Int × Int)} (h : covers lo hi l) :
    lo ≤ hi + 1 := by
  induction l generalizing lo with
  | nil => simp [covers] at h; omega
  | cons r rs ih =>
    obtain ⟨hstart, hne, htail⟩ := h
    have := ih htail
    omega

/-- Every range of a tiling starts at or after the tiling's lower bound. -/
lemma start_mem {lo hi : Int} {l : List (Int × Int)} (h : covers lo hi l) :
    ∀ r ∈ l, lo ≤ r.1 := by
  induction l generalizing lo with
  | nil => simp
  | cons r rs ih =>
    obtain ⟨hstart, hne, htail⟩ := h
    intro r' hr'
    rcases List.mem_cons.mp hr' with h' | h'
    · subst h'; omega
    · have := ih htail r' h'
      omega

/-- Exact cover: each point of `[lo, hi]` lies in exactly one range of the
tiling. -/
lemma countP_eq_one {lo hi : Int} {l : List (Int × Int)} (h : covers lo hi l)
    {k : Int} (h1 : lo ≤ k) (h2 : k ≤ hi) :
    l.countP (fun r => decide (r.1 ≤ k) && decide (k ≤ r.2)) = 1 := by
  induction l generalizing lo with
  | nil => simp [covers] at h; omega
  | cons r rs ih =>
    obtain ⟨hstart, hne, htail⟩ := h
    rw [List.countP_cons]
    by_cases hk : k ≤ r.2
    · have hzero : rs.countP (fun r => decide (r.1 ≤ k) && decide (k ≤ r.2)) = 0 := by
        rw [List.countP_eq_zero]
        intro r' hr'
        have hge := start_mem htail r' hr'
        simp only [Bool.and_eq_true, decide_eq_true_eq, not_and]
        intro ha
        omega
      have hpr : (decide (r.1 ≤ k) && decide (k ≤ r.2)) = true := by
        simp only [Bool.and_eq_true, decide_eq_true_eq]
        omega
      rw [hzero, hpr]
      rfl
    · have hpr : (decide (r.1 ≤ k) && decide (k ≤ r.2)) = false := by
        simp only [Bool.and_eq_false_iff, decide_eq_false_iff_not]
        right; exact hk
      rw [hpr, ih htail (by omega)]
      rfl

end covers

/-- A mapped `List.range'` block tiles `[lo, hi]` whenever the images chain:
the first range starts at `lo`, each range is nonempty and starts one past
the previous end, and the final range ends at `hi`. -/
lemma covers_map_range' (f : Nat → Int × Int) (hi : Int) :
    ∀ (b a : Nat) (lo : Int),
      (b = 0 → lo = hi + 1) →
      (b ≠ 0 → (f a).1 = lo) →
      (∀ i, a ≤ i → i < a + b → (f i).1 ≤ (f i).2) →
      (∀ i, a ≤ i → i + 1 < a + b → (f (i + 1)).1 = (f i).2 + 1) →
      (b ≠ 0 → (f (a + b - 1)).2 = hi) →
      covers lo hi ((List.range' a b).map f)
  | 0, a, lo, h1, _, _, _, _ => by simp [covers, h1 rfl]
  | b + 1, a, lo, h1, h2, h3, h4, h5 => by
    rw [List.range'_succ, List.map_cons]
    refine ⟨h2 (by omega), h3 a le_rfl (by omega), ?_⟩
    refine covers_map_range' f hi b (a + 1) ((f a).2 + 1) ?_ ?_ ?_ ?_ ?_
    · intro hb0
      have h5' := h5 (by omega)
      have : a + (b + 1) - 1 = a := by omega
      rw [this] at h5'
      omega
    · intro hb0
      exact h4 a le_rfl (by omega)
    · intro i hi1 hi2
      exact h3 i (by omega) (by omega)
    · intro i hi1 hi2
      exact h4 i (by omega) (by omega)
    · intro hb0
      have : a + 1 + b - 1 = a + (b + 1) - 1 := by omega
      rw [this]
      exact h5 (by omega)

/-- The ranges planned by `get_partition_ranges` tile `[1, total_rows]`
whenever `1 ≤ num_threads ≤ total_rows`. -/
lemma covers_partition_ranges (n : Nat) (t : Int) (hn : 1 ≤ n)
    (hnt : (n : Int) ≤ t) :
    covers 1 t ((List.range n).map (fun i : Nat =>
      ((i : Int) * Int.fdiv t (n : Int) + 1,
       if (i : Int) < (n : Int) - 1 then ((i : Int) + 1) * Int.fdiv t (n : Int)
       else t))) := by
  set c := Int.fdiv t (n : Int) with hcdef
  have hn0 : (0 : Int) < (n : Int) := by exact_mod_cast hn
  have hceq : c = t / (n : Int) := Int.fdiv_eq_ediv t (le_of_lt hn0)
  have hmod := Int.ediv_add_emod t (n : Int)
  have hm1 : 0 ≤ t % (n : Int) := Int.emod_nonneg t (ne_of_gt hn0)
  have hm2 : t % (n : Int) < (n : Int) := Int.emod_lt_of_pos t hn0
  have hub : (n : Int) * c ≤ t := by rw [hceq]; omega
  have hlb : t < (n : Int) * c + (n : Int) := by rw [hceq]; omega
  have hc1 : 1 ≤ c := by
    by_contra hc
    push_neg at hc
    have : (n : Int) * c ≤ 0 := mul_nonpos_of_nonneg_of_nonpos (le_of_lt hn0) (by omega)
    omega
  rw [List.range_eq_range']
  refine covers_map_range' _ t n 0 1 (fun h0 => absurd h0 (by omega)) (fun _ => by simp) ?_ ?_
    (fun _ => ?_)
  · intro i _ hib
    by_cases hlt : (i : Int) < (n : Int) - 1
    · simp only [if_pos hlt]
      have hring : ((i : Int) + 1) * c = (i : Int) * c + c := by ring
      omega
    · simp only [if_neg hlt]
      have hring : ((i : Int)) * c ≤ ((n : Int) - 1) * c := by
        have : (i : Int) ≤ (n : Int) - 1 := by omega
        exact mul_le_mul_of_nonneg_right this (by omega)
      have hring2 : ((n : Int) - 1) * c = (n : Int) * c - c := by ring
      omega
  · intro i _ hib
    have hi' : ((i : Int)) < (n : Int) - 1 := by omega
    simp only [if_pos hi']
    push_cast
    ring
  · have h0 : 0 + n - 1 = n - 1 := by omega
    rw [h0]
    have hlast : ¬(((n - 1 : Nat) : Int) < (n : Int) - 1) := by omega
    simp only [if_neg hlast]

/-- C2: for `total_rows ≥ 1` and `partition_count ∈ [1, total_rows]`, every
row index `k ∈ [1, total_rows]` lies in exactly one of the returned
`[start, end]` ranges — the planned ranges exactly cover the interval with
no gaps and no overlaps. -/
theorem spec_c2 (n : Nat) (t : Int) (hn : 1 ≤ n) (hnt : (n : Int) ≤ t)
    (ranges : List (Int × Int))
    (hr : OracleThreadedQuery.get_partition_ranges n t = Except.ok ranges)
    (k : Int) (hk1 : 1 ≤ k) (hk2 : k ≤ t) :
    ranges.countP (fun r => decide (r.1 ≤ k) && decide (k ≤ r.2)) = 1 := by
  rw [OracleThreadedQuery.get_partition_ranges_eq n t hn] at hr
  injection hr with hr
  subst hr
  exact (covers_partition_ranges n t hn hnt).countP_eq_one hk1 hk2

/-- Witness for C2 at `total_rows = 25`, `partition_count = 4`, row 10. -/
theorem spec_c2_witness :
    ([((1 : Int), (6 : Int)), (7, 12), (13, 18), (19, 25)]).countP
      (fun r => decide (r.1 ≤ 10) && decide (10 ≤ r.2)) = 1 :=
  spec_c2 4 25 (by decide) (by decide) [(1, 6), (7, 12), (13, 18), (19, 25)]
    (by rfl) 10 (by decide) (by decide)

/-- C3: `get_partition_ranges` computes `chunk_size` by integer division,
range `i` (before the last) is `[i*chunk_size + 1, (i+1)*chunk_size]`, the
last range ends at `total_rows`; for 25 rows in 4 partitions the ranges are
`[1,6],[7,12],[13,18],[19,25]`. -/
theorem spec_c3 (n : Nat) (t : Int) (hn : 1 ≤ n) (ht : 0 ≤ t) :
    ∃ l, OracleThreadedQuery.get_partition_ranges n t = Except.ok l ∧
      l.length = n ∧
      (∀ i : Nat, i < n - 1 →
        l.getD i (0, 0) =
          ((i : Int) * Int.fdiv t (n : Int) + 1,
           ((i : Int) + 1) * Int.fdiv t (n : Int))) ∧
      (l.getD (n - 1) (0, 0)).2 = t ∧
      OracleThreadedQuery.get_partition_ranges 4 25 =
        Except.ok [(1, 6), (7, 12), (13, 18), (19, 25)] := by
  refine ⟨_, OracleThreadedQuery.get_partition_ranges_eq n t hn, by simp, ?_, ?_, by rfl⟩
  · intro i hi
    have hin : i < n := by omega
    have hilt : ((i : Int)) < (n : Int) - 1 := by omega
    simp [List.getD_eq_getElem?_getD, List.getElem?_map, List.getElem?_range, hin, hilt]
  · have hin : n - 1 < n := by omega
    have hige : ¬(((n - 1 : Nat) : Int) < (n : Int) - 1) := by omega
    simp [List.getD_eq_getElem?_getD, List.getElem?_map, List.getElem?_range, hin, hige]

/-- Witness for C3 at `total_rows = 25`, `partition_count = 4`. -/
theorem spec_c3_witness :
    OracleThreadedQuery.get_partition_ranges 4 25 =
      Except.ok [(1, 6), (7, 12), (13, 18), (19, 25)] := by
  obtain ⟨l, -, -, -, -, h⟩ := spec_c3 4 25 (by decide) (by decide)
  exact h

/-- C9: `get_partition_ranges` raises `ZeroDivisionError` when
`num_threads = 0` and returns normally for every `num_threads ≥ 1` and
`total_rows ≥ 0`. -/
theorem spec_c9 (t : Int) (ht : 0 ≤ t) (n : Nat) (hn : 1 ≤ n) :
    OracleThreadedQuery.get_partition_ranges 0 t =
      Except.error "ZeroDivisionError" ∧
    ∃ l, OracleThreadedQuery.get_partition_ranges n t = Except.ok l :=
  ⟨rfl, ⟨_, OracleThreadedQuery.get_partition_ranges_eq n t hn⟩⟩

/-- Witness for C9 at `total_rows = 7`, `num_threads = 3`. -/
theorem spec_c9_witness :
    OracleThreadedQuery.get_partition_ranges 0 7 =
      Except.error "ZeroDivisionError" ∧
    ∃ l, OracleThreadedQuery.get_partition_ranges 3 7 = Except.ok l :=
  spec_c9 7 (by decide) 3 (by decide)

/-- C7 counterexample: fed the nonsensical total `-5`, planning does not
fail with any error — it returns four degenerate ranges, all of which are
dispatched to workers. -/
theorem spec_c7_counterexample :
    OracleThreadedQuery.get_partition_ranges 4 (-5) =
      Except.ok [(1, -2), (-1, -4), (-3, -6), (-5, -5)] ∧
    ([((1 : Int), (-2 : Int)), (-1, -4), (-3, -6), (-5, -5)]).length ≠ 0 :=
  ⟨rfl, by decide⟩

/-- C7 amended: the code defines no `PlanningError`; for every
`num_threads ≥ 1` and every total (negative included) planning returns
normally with exactly `num_threads` ranges, all of which are dispatched. -/
theorem spec_c7_amended (n : Nat) (hn : 1 ≤ n) (t : Int) :
    ∃ l, OracleThreadedQuery.get_partition_ranges n t = Except.ok l ∧
      l.length = n :=
  ⟨_, OracleThreadedQuery.get_partition_ranges_eq n t hn, by simp⟩

/-- Witness for the amended C7 at `num_threads = 4`, total `-5`. -/
theorem spec_c7_amended_witness :
    ∃ l, OracleThreadedQuery.get_partition_ranges 4 (-5) = Except.ok l ∧
      l.length = 4 :=
  spec_c7_amended 4 (by decide) (-5)

namespace OracleYearPartitionedQuery

/-- A queue sorted by year with pairwise-distinct years is strictly sorted. -/
lemma sorted_strict {l : List (Int × List Row)} (hs : List.Sorted yearLe l)
    (hnd : (l.map Prod.fst).Nodup) : List.Sorted yearLt l := by
  induction l with
  | nil => simp
  | cons a l ih =>
    rw [List.sorted_cons] at hs ⊢
    rw [List.map_cons, List.nodup_cons] at hnd
    obtain ⟨h1, h2⟩ := hs
    obtain ⟨h3, h4⟩ := hnd
    refine ⟨fun b hb => ?_, ih h2 h4⟩
    have hle : yearLe a b := h1 b hb
    have hne : a.1 ≠ b.1 := fun h =>
      h3 (by rw [h]; exact List.mem_map_of_mem Prod.fst hb)
    exact lt_of_le_of_ne hle hne

/-- With pairwise-distinct years, sorting by year is invariant under
permutations of the queue: the merge order cannot depend on which worker
finished first. -/
lemma sort_by_year_eq_of_perm (q q' : List (Int × List Row))
    (hnd : (q.map Prod.fst).Nodup) (hp : q.Perm q') :
    sort_by_year q = sort_by_year q' := by
  have hperm : (sort_by_year q).Perm (sort_by_year q') :=
    ((List.perm_insertionSort yearLe q).trans hp).trans
      (List.perm_insertionSort yearLe q').symm
  have hnd1 : ((sort_by_year q).map Prod.fst).Nodup :=
    (((List.perm_insertionSort yearLe q).map Prod.fst).nodup_iff).mpr hnd
  have hnd2 : ((sort_by_year q').map Prod.fst).Nodup :=
    (((List.perm_insertionSort yearLe q').map Prod.fst).nodup_iff).mpr
      (((hp.map Prod.fst).nodup_iff).mp hnd)
  exact List.eq_of_perm_of_sorted hperm
    (sorted_strict (List.sorted_insertionSort yearLe q) hnd1)
    (sorted_strict (List.sorted_insertionSort yearLe q') hnd2)

/-- The result queue holds exactly the non-failing years, each paired with
its rows, in plan order along the canonical completion order. -/
lemma filterMap_process_year (db : Int → List Row) (fails : Int → Bool)
    (ys : List Int) :
    ys.filterMap (process_year db fails) =
      (ys.filter (fun y => !(fails y))).map (fun y => (y, db y)) := by
  induction ys with
  | nil => rfl
  | cons y ys ih =>
    rw [List.filterMap_cons, List.filter_cons]
    cases hfy : fails y <;> simp [process_year, hfy, ih]

/-- The planned year list has no duplicates. -/
lemma nodup_plan_years (s e : Int) : (plan_years s e).Nodup := by
  refine (List.nodup_range _).map ?_
  intro a b hab
  dsimp only at hab
  omega

/-- The planned year list is strictly increasing. -/
lemma pairwise_lt_plan_years (s e : Int) :
    (plan_years s e).Pairwise (· < ·) := by
  refine List.Pairwise.map _ (fun a b hab => ?_) (List.pairwise_lt_range _)
  dsimp only
  omega

/-- Along the canonical completion order the queue's years are distinct. -/
lemma nodup_keys_queue (db : Int → List Row) (fails : Int → Bool) (s e : Int) :
    (((plan_years s e).filterMap (process_year db fails)).map Prod.fst).Nodup := by
  rw [filterMap_process_year, List.map_map]
  have : (Prod.fst ∘ fun y : Int => (y, db y)) = fun y : Int => y := rfl
  rw [this]
  simpa using ((nodup_plan_years s e).filter _)

/-- Along the canonical completion order the queue is already year-sorted. -/
lemma sorted_queue (db : Int → List Row) (fails : Int → Bool) (s e : Int) :
    List.Sorted yearLe ((plan_years s e).filterMap (process_year db fails)) := by
  rw [filterMap_process_year]
  show List.Pairwise yearLe _
  have hp : ((plan_years s e).filter (fun y => !(fails y))).Pairwise (· < ·) :=
    List.Pairwise.sublist (List.filter_sublist _) (pairwise_lt_plan_years s e)
  refine List.Pairwise.map _ (fun a b hab => ?_) hp
  exact le_of_lt hab

/-- Merging the canonical queue yields the non-failing years' rows,
concatenated in ascending year order. -/
lemma merge_year_canonical (db : Int → List Row) (fails : Int → Bool)
    (s e : Int) :
    merge_year ((plan_years s e).filterMap (process_year db fails)) =
      (((plan_years s e).filter (fun y => !(fails y))).map db).flatten := by
  simp only [merge_year, sort_by_year]
  rw [(sorted_queue db fails s e).insertionSort_eq]
  rw [filterMap_process_year, List.map_map]
  have : (Prod.snd ∘ fun y : Int => (y, db y)) = db := rfl
  rw [this]

end OracleYearPartitionedQuery

/-- Reduction of `Except` bind on a success value. -/
lemma except_bind_ok {ε α β : Type} (a : α) (f : α → Except ε β) :
    (Except.ok a >>= f) = f a := rfl

/-- C5: for every key-mode range `[start_year, end_year]` with
`start_year ≤ end_year`, exactly `end_year - start_year + 1` partitions are
planned, one per integer value of the range, with no duplicates. -/
theorem spec_c5 (s e : Int) (h : s ≤ e) :
    ((OracleYearPartitionedQuery.plan_years s e).length : Int) = e - s + 1 ∧
    (∀ y : Int, y ∈ OracleYearPartitionedQuery.plan_years s e ↔ s ≤ y ∧ y ≤ e) ∧
    (OracleYearPartitionedQuery.plan_years s e).Nodup := by
  refine ⟨?_, ?_, OracleYearPartitionedQuery.nodup_plan_years s e⟩
  · simp only [OracleYearPartitionedQuery.plan_years, List.length_map,
      List.length_range]
    omega
  · intro y
    simp only [OracleYearPartitionedQuery.plan_years, List.mem_map, List.mem_range]
    constructor
    · rintro ⟨i, hi, rfl⟩
      omega
    · rintro ⟨h1, h2⟩
      exact ⟨(y - s).toNat, by omega, by omega⟩

/-- Witness for C5 at the spec's scenario `start_year = 2020`,
`end_year = 2022`. -/
theorem spec_c5_witness :
    ((OracleYearPartitionedQuery.plan_years 2020 2022).length : Int) =
      2022 - 2020 + 1 ∧
    (2021 ∈ OracleYearPartitionedQuery.plan_years 2020 2022 ↔
      2020 ≤ (2021 : Int) ∧ (2021 : Int) ≤ 2022) ∧
    (OracleYearPartitionedQuery.plan_years 2020 2022).Nodup := by
  obtain ⟨h1, h2, h3⟩ := spec_c5 2020 2022 (by decide)
  exact ⟨h1, h2 2021, h3⟩

/-- C1 counterexample: in the range variant the merge stage concatenates the
queue in completion order without sorting, so permuting the worker
completion order changes the merged output: with base rows `[10, 20]` and 2
threads, completion order `[(2,2)-chunk, (1,1)-chunk]` merges to `[20, 10]`
while the opposite order merges to `[10, 20]`. -/
theorem spec_c1_counterexample :
    OracleThreadedQuery.get_partition_ranges 2 (([10, 20] : List Row).length : Int) =
      Except.ok [(1, 1), (2, 2)] ∧
    ([((1 : Int), (1 : Int)), (2, 2)]).map
      (OracleThreadedQuery.process_chunk [10, 20]) = [[10], [20]] ∧
    ([[20], [10]] : List (List Row)).Perm [[10], [20]] ∧
    OracleThreadedQuery.merge_range [[20], [10]] ≠
      OracleThreadedQuery.merge_range [[10], [20]] :=
  ⟨rfl, rfl, by decide, by decide⟩

/-- C1 amended: in the year variant the claim holds — for a queue with
pairwise-distinct years the merged output is identical for every
permutation of completion order, and the merge is sorted by ascending year.
(In the range variant the merged order is the completion order.) -/
theorem spec_c1_amended (q q' : List (Int × List Row))
    (hnd : (q.map Prod.fst).Nodup) (hp : q.Perm q') :
    OracleYearPartitionedQuery.merge_year q =
      OracleYearPartitionedQuery.merge_year q' ∧
    List.Sorted OracleYearPartitionedQuery.yearLe
      (OracleYearPartitionedQuery.sort_by_year q) := by
  constructor
  · unfold OracleYearPartitionedQuery.merge_year
    rw [OracleYearPartitionedQuery.sort_by_year_eq_of_perm q q' hnd hp]
  · exact List.sorted_insertionSort OracleYearPartitionedQuery.yearLe q

/-- Witness for the amended C1: two completion orders of the same two year
results merge identically and sorted. -/
theorem spec_c1_amended_witness :
    OracleYearPartitionedQuery.merge_year [(2021, [5]), (2020, [4])] =
      OracleYearPartitionedQuery.merge_year [(2020, [4]), (2021, [5])] ∧
    List.Sorted OracleYearPartitionedQuery.yearLe
      (OracleYearPartitionedQuery.sort_by_year [(2021, [5]), (2020, [4])]) :=
  spec_c1_amended [(2021, [5]), (2020, [4])] [(2020, [4]), (2021, [5])]
    (by decide) (by decide)

/-- C4 counterexample: at `total_rows = 0` with 4 threads the planner does
not yield zero partitions — it yields four empty ranges `(1, 0)`, and all
four are dispatched to workers. -/
theorem spec_c4_counterexample :
    OracleThreadedQuery.get_partition_ranges 4 0 =
      Except.ok [(1, 0), (1, 0), (1, 0), (1, 0)] ∧
    ([((1 : Int), (0 : Int)), (1, 0), (1, 0), (1, 0)]).length ≠ 0 :=
  ⟨rfl, by decide⟩

/-- C4 amended: at `total_rows = 0` the planner yields `num_threads` empty
ranges `(1, 0)` (start > end), every dispatched chunk query returns zero
rows, and the pipeline returns an empty result without error. -/
theorem spec_c4_amended (n : Nat) (hn : 1 ≤ n) :
    ∃ l, OracleThreadedQuery.get_partition_ranges n 0 = Except.ok l ∧
      l.length = n ∧
      (∀ r ∈ l, r = ((1 : Int), (0 : Int)) ∧
        OracleThreadedQuery.process_chunk [] r = ([] : List Row)) ∧
      OracleThreadedQuery.execute_parallel [] n = Except.ok [] := by
  refine ⟨_, OracleThreadedQuery.get_partition_ranges_eq n 0 hn, by simp, ?_, ?_⟩
  · intro r hr
    simp only [List.mem_map, List.mem_range] at hr
    obtain ⟨i, hi, rfl⟩ := hr
    refine ⟨?_, by simp [OracleThreadedQuery.process_chunk]⟩
    simp [Int.zero_fdiv]
  · have hok := OracleThreadedQuery.get_partition_ranges_eq n 0 hn
    unfold OracleThreadedQuery.execute_parallel
    rw [show (([] : List Row).length : Int) = 0 from rfl, hok, except_bind_ok]
    refine congrArg Except.ok ?_
    simp [OracleThreadedQuery.merge_range, OracleThreadedQuery.process_chunk,
      List.flatten_eq_nil_iff]

/-- Witness for the amended C4 at `num_threads = 4`. -/
theorem spec_c4_amended_witness :
    ∃ l, OracleThreadedQuery.get_partition_ranges 4 0 = Except.ok l ∧
      l.length = 4 ∧
      (∀ r ∈ l, r = ((1 : Int), (0 : Int)) ∧
        OracleThreadedQuery.process_chunk [] r = ([] : List Row)) ∧
      OracleThreadedQuery.execute_parallel [] 4 = Except.ok [] :=
  spec_c4_amended 4 (by decide)

/-- C6 counterexample: with years 2020-2022 and the 2021 worker failing,
the caller receives a plain success value holding only 2020's and 2022's
rows — a truncated row collection with no indication of the failed
partition — while a complete run returns all three years' rows. -/
theorem spec_c6_counterexample :
    OracleYearPartitionedQuery.execute_parallel exdb exfails 2020 2022 =
      Except.ok [1, 3] ∧
    OracleYearPartitionedQuery.execute_parallel exdb (fun _ => false) 2020 2022 =
      Except.ok [1, 2, 3] ∧
    ([1, 3] : List Row) ≠ [1, 2, 3] :=
  ⟨rfl, rfl, by decide⟩

/-- C6 amended: when partitions fail, the pipeline returns a plain success
value holding exactly the successful partitions' rows in ascending year
order; failed partitions are only logged and are not represented in the
returned value. -/
theorem spec_c6_amended (db : Int → List Row) (fails : Int → Bool) (s e : Int)
    (h : s ≤ e) :
    OracleYearPartitionedQuery.execute_parallel db fails s e =
      Except.ok ((((OracleYearPartitionedQuery.plan_years s e).filter
        (fun y => !(fails y))).map db).flatten) := by
  have hlen : ¬((OracleYearPartitionedQuery.plan_years s e).length = 0) := by
    simp only [OracleYearPartitionedQuery.plan_years, List.length_map,
      List.length_range]
    omega
  simp only [OracleYearPartitionedQuery.execute_parallel]
  rw [if_neg hlen, OracleYearPartitionedQuery.merge_year_canonical]

/-- Witness for the amended C6 at the spec's scenario: years 2020-2022,
worker 2021 failing. -/
theorem spec_c6_amended_witness :
    OracleYearPartitionedQuery.execute_parallel exdb exfails 2020 2022 =
      Except.ok ((((OracleYearPartitionedQuery.plan_years 2020 2022).filter
        (fun y => !(exfails y))).map exdb).flatten) :=
  spec_c6_amended exdb exfails 2020 2022 (by decide)

/-- C8: the merge stage consumes the full set of terminal results: for every
completion order (permutation of the deposited queue) the year-variant merge
yields the same output as the canonical order, and the range-variant merge
output is a permutation of (contains exactly) all deposited chunk rows. -/
theorem spec_c8 (db : Int → List Row) (fails : Int → Bool) (s e : Int)
    (q : List (Int × List Row))
    (hq : q.Perm ((OracleYearPartitionedQuery.plan_years s e).filterMap
      (OracleYearPartitionedQuery.process_year db fails)))
    (qr rs : List (List Row)) (hqr : qr.Perm rs) :
    OracleYearPartitionedQuery.merge_year q =
      OracleYearPartitionedQuery.merge_year
        ((OracleYearPartitionedQuery.plan_years s e).filterMap
          (OracleYearPartitionedQuery.process_year db fails)) ∧
    (OracleThreadedQuery.merge_range qr).Perm
      (OracleThreadedQuery.merge_range rs) := by
  constructor
  · have hnd : (q.map Prod.fst).Nodup :=
      ((hq.map Prod.fst).nodup_iff).mpr
        (OracleYearPartitionedQuery.nodup_keys_queue db fails s e)
    unfold OracleYearPartitionedQuery.merge_year
    rw [OracleYearPartitionedQuery.sort_by_year_eq_of_perm q _ hnd hq]
  · exact hqr.flatten

/-- Witness for C8: a reversed completion order of the 2020-2022 run with
2021 failing, and a two-chunk range queue in both orders. -/
theorem spec_c8_witness :
    OracleYearPartitionedQuery.merge_year [(2022, [3]), (2020, [1])] =
      OracleYearPartitionedQuery.merge_year
        ((OracleYearPartitionedQuery.plan_years 2020 2022).filterMap
          (OracleYearPartitionedQuery.process_year exdb exfails)) ∧
    (OracleThreadedQuery.merge_range [[7], [9]]).Perm
      (OracleThreadedQuery.merge_range [[9], [7]]) :=
  spec_c8 exdb exfails 2020 2022 [(2022, [3]), (2020, [1])] (by decide)
    [[7], [9]] [[9], [7]] (by decide)

/-- C10: with `start_year > end_year` the year variant plans zero
partitions and raises `ZeroDivisionError` at the average-time-per-year
metric instead of returning an empty result; it returns normally exactly
under the precondition `start_year ≤ end_year`. -/
theorem spec_c10 (db : Int → List Row) (fails : Int → Bool) (s e : Int) :
    (e < s → OracleYearPartitionedQuery.plan_years s e = [] ∧
      OracleYearPartitionedQuery.execute_parallel db fails s e =
        Except.error "ZeroDivisionError") ∧
    (s ≤ e → ∃ l, OracleYearPartitionedQuery.execute_parallel db fails s e =
      Except.ok l) := by
  constructor
  · intro h
    have h0 : (e + 1 - s).toNat = 0 := by omega
    have hplan : OracleYearPartitionedQuery.plan_years s e = [] := by
      simp [OracleYearPartitionedQuery.plan_years, h0]
    refine ⟨hplan, ?_⟩
    simp [OracleYearPartitionedQuery.execute_parallel, hplan]
  · intro h
    have hlen : ¬((OracleYearPartitionedQuery.plan_years s e).length = 0) := by
      simp only [OracleYearPartitionedQuery.plan_years, List.length_map,
        List.length_range]
      omega
    refine ⟨OracleYearPartitionedQuery.merge_year
      ((OracleYearPartitionedQuery.plan_years s e).filterMap
        (OracleYearPartitionedQuery.process_year db fails)), ?_⟩
    simp only [OracleYearPartitionedQuery.execute_parallel]
    rw [if_neg hlen]

/-- Witness for C10 at the inverted range `[5, 3]` and the proper range
`[3, 5]`. -/
theorem spec_c10_witness :
    (OracleYearPartitionedQuery.plan_years 5 3 = [] ∧
      OracleYearPartitionedQuery.execute_parallel (fun _ => ([] : List Row))
        (fun _ => false) 5 3 = Except.error "ZeroDivisionError") ∧
    (∃ l, OracleYearPartitionedQuery.execute_parallel (fun _ => ([] : List Row))
      (fun _ => false) 3 5 = Except.ok l) :=
  ⟨(spec_c10 (fun _ => []) (fun _ => false) 5 3).1 (by decide),
   (spec_c10 (fun _ => []) (fun _ => false) 3 5).2 (by decide)⟩
